import Mathlib

/-!
# Verification of the `rsallms` Connections-solver core

A shallow embedding, in Lean 4, of the algorithmic core of the
`the_amazing_connections` repository, together with proofs of the
behavioural properties stated in its specification.

Embedded components (each definition is annotated with the Python
source it was translated from):

* `src/rsallms/game.py` — `Category`, the `Connections` state machine and
  `category_guess_check`;
* `src/rsallms/metrics.py` — `Metrics.add_solve` and
  `Metrics.cosine_similarity_category`;
* `src/rsallms/solvers/rsa.py` — `RSASolver._generate_groups` and
  `RSASolver.guess`;
* `src/rsallms/solvers/gvc.py` / `snap_gvc.py` — the guesser/validator
  negotiation loops and `SGVCSolver.grounding_check`.

LLM endpoints are opaque collaborators of the code; they are modelled as
oracle functions passed to the embedded definitions.  Python exceptions
are modelled with explicit error values (`Except`/`Option`); where an
exception aborts a call, the pre-call state is the state that survives,
exactly as in Python (all the embedded methods mutate state only after
their last possible raise point, or not at all).  Python `float`
arithmetic is modelled over `ℚ`.
-/

namespace Rsallms

/-! ## game.py: `Category` -/

/-- From `game.py`, `Category`: schema for one category of the puzzle
(`level: int`, `group: str`, `members: list[str]`). -/
structure Category where
  level : Int
  group : String
  members : List String
deriving DecidableEq, Repr

/-- From `game.py`, `Category.matches`:
`set(words) == set(self.members)` — equality of the two word lists as
sets, i.e. mutual containment. -/
def Category.matchesWords (c : Category) (words : List String) : Bool :=
  words.all (fun w => c.members.contains w) && c.members.all (fun w => words.contains w)

/-! ## game.py: the `Connections` state machine -/

/-- From `game.py`, the mutable state of a `Connections` game that
`category_guess_check` reads and writes: `_max_strikes`,
`current_strikes` and the active `categories` list.  (`_og_groups` and
`group_size` are never consulted by the guess logic and are omitted.) -/
structure Connections where
  maxStrikes : Nat
  currentStrikes : Nat
  categories : List Category
deriving DecidableEq, Repr

/-- From `game.py`, `GameOverException`. -/
inductive GameError where
  | gameOver
deriving DecidableEq, Repr

/-- Helper embedding the match-and-remove step of
`category_guess_check`:

```python
matches = [group.matches(words) for group in self.categories]
matched_group = matches.index(True)
solved_category = self.categories.pop(matched_group)
```

`matches.index(True)` is the index of the *first* structurally matching
category; `pop` removes it from the list and returns it.  `popFirstMatch`
performs exactly that composite: it returns the first category matching
`words` together with the category list with that single element
removed, or `none` when no category matches (`any(matches)` false). -/
def popFirstMatch (cats : List Category) (words : List String) :
    Option (Category × List Category) :=
  match cats with
  | [] => none
  | c :: rest =>
    if c.matchesWords words then some (c, rest)
    else
      match popFirstMatch rest words with
      | some (m, rest') => some (m, c :: rest')
      | none => none

/-- From `game.py`, `Connections.category_guess_check`:

```python
if self.current_strikes >= self._max_strikes:
    raise GameOverException(...)
matches = [group.matches(words) for group in self.categories]
good_guess = any(matches)
if not good_guess:
    self.current_strikes += 1
    return None
matched_group = matches.index(True)
solved_category = self.categories.pop(matched_group)
return solved_category
```

The returned pair is (return value, post-state); raising is the
`Except.error` case (the exception fires before any mutation, so the
pre-call state survives it). -/
def Connections.category_guess_check (g : Connections) (words : List String) :
    Except GameError (Option Category × Connections) :=
  if g.maxStrikes ≤ g.currentStrikes then
    .error .gameOver
  else
    match popFirstMatch g.categories words with
    | none => .ok (none, { g with currentStrikes := g.currentStrikes + 1 })
    | some (c, rest) => .ok (some c, { g with categories := rest })

/-- The state evolution of one `category_guess_check` call: a call that
raises leaves the game state unchanged (the exception fires before any
mutation), a call that returns yields the new state. -/
def Connections.guessStep (g : Connections) (words : List String) : Connections :=
  match g.category_guess_check words with
  | .error _ => g
  | .ok (_, g') => g'

/-- State after a whole sequence of `category_guess_check` calls
(raising calls included — they leave the state unchanged). -/
def Connections.runGuesses (g : Connections) (l : List (List String)) : Connections :=
  l.foldl Connections.guessStep g

/-! ## metrics.py: `Metrics` -/

/-- From `metrics.py`, the fields of the `Metrics` dataclass read or
written by `add_solve` and `cosine_similarity_category`, with the
dataclass defaults (`total_levels=4`, `points_per_correct=5`,
`solves=[False]*4`, `solve_order=[]`, `points=0`,
`category_similarity=0.0`).  Note the `solves` default is a 4-element
list regardless of `total_levels`, exactly as in the source.  The float
`category_similarity` is modelled over `ℚ`. -/
structure Metrics where
  total_levels : Nat := 4
  points_per_correct : Nat := 5
  solves : List Bool := [false, false, false, false]
  solve_order : List Nat := []
  points : Nat := 0
  category_similarity : ℚ := 0
deriving DecidableEq, Repr

/-- A fresh `Metrics()` with all dataclass defaults. -/
def Metrics.init : Metrics := {}

/-- From `metrics.py`, `Metrics.add_solve`:

```python
def add_solve(self, level: int):
    if not self.solves[level]:
        self.solves[level] = True
        self.solve_order.append(level)
        self.points += self.points_per_correct
```

An out-of-range `level` raises `IndexError` in Python before any
mutation; that is the `none` case here. -/
def Metrics.add_solve (m : Metrics) (level : Nat) : Option Metrics :=
  match m.solves[level]? with
  | none => none
  | some true => some m
  | some false => some { m with
      solves := m.solves.set level true,
      solve_order := m.solve_order ++ [level],
      points := m.points + m.points_per_correct }

/-- From `metrics.py`, `Metrics.cosine_similarity_category`:

```python
embeddings = self.model.encode([guessed_cat, correct_cat])
similarity = np.dot(embedding1, embedding2)
normalized_similarity = (similarity + 1) / 2
self.category_similarity = (((len(self.solve_order) - 1) * self.category_similarity)
                            + normalized_similarity) / len(self.solve_order)
```

The sentence-embedding model is an opaque collaborator; `dot` is the raw
`np.dot(embedding1, embedding2)` value it produces for the two labels.
The only state change is the `category_similarity` assignment; when
`len(self.solve_order) == 0` the division raises `ZeroDivisionError`
before the assignment, leaving the state unchanged (the `none` case). -/
def Metrics.cosine_similarity_category (m : Metrics) (dot : ℚ) : Option Metrics :=
  let normalized_similarity := (dot + 1) / 2
  let k := m.solve_order.length
  if k = 0 then none
  else some { m with category_similarity :=
    (((k : ℚ) - 1) * m.category_similarity + normalized_similarity) / (k : ℚ) }

/-- One driver-visible event touching the `Metrics` accumulator: a
successful solve recorded via `add_solve`, or a
`cosine_similarity_category` call on a `(guessed_label, true_label)`
pair. -/
inductive MetricsEvent where
  | solve (level : Nat)
  | cosSim (guessedCat correctCat : String)
deriving DecidableEq, Repr

/-- Effect of one `MetricsEvent` on the accumulator, given the opaque
embedding collaborator `emb` (mapping a label pair to the raw dot
product of their embeddings).  A call that raises (`IndexError` /
`ZeroDivisionError`) leaves the accumulator unchanged. -/
def Metrics.step (emb : String → String → ℚ) (m : Metrics) : MetricsEvent → Metrics
  | .solve level => (m.add_solve level).getD m
  | .cosSim g c => (m.cosine_similarity_category (emb g c)).getD m

/-- State of the accumulator after a sequence of events. -/
def Metrics.run (emb : String → String → ℚ) (m : Metrics) (evs : List MetricsEvent) : Metrics :=
  evs.foldl (Metrics.step emb) m

/-- State of the accumulator after a sequence of `add_solve` calls only
(an out-of-range call raises and leaves the state unchanged). -/
def Metrics.runSolves (m : Metrics) (ls : List Nat) : Metrics :=
  ls.foldl (fun m l => (m.add_solve l).getD m) m

/-- The bookkeeping invariant of the `Metrics` solve accumulator:
`solve_order` lists exactly the levels whose `solves` flag is set, with
no duplicates, and `points` is `points_per_correct` per recorded
level. -/
def MetricsSolveInv (m : Metrics) : Prop :=
  m.solve_order.Nodup ∧
  m.points = m.points_per_correct * m.solve_order.length ∧
  (∀ l, l ∈ m.solve_order ↔ m.solves.getD l false = true)

/-! ## Python string primitives shared by the solvers -/

/-- Python `<` on lists of characters: lexicographic by code point,
with a strict prefix comparing smaller. -/
def pyCharsLt : List Char → List Char → Bool
  | [], [] => false
  | [], _ :: _ => true
  | _ :: _, [] => false
  | a :: as, b :: bs => if a < b then true else if b < a then false else pyCharsLt as bs

/-- Python `<` on strings: lexicographic comparison of the code
points.  (Extensionally the same order as the Lean `String` order;
defined character-wise so that it evaluates by kernel reduction.) -/
def pyStrLt (a b : String) : Bool := pyCharsLt a.data b.data

/-- Python `<=` on strings (a total order, so `a <= b ⟺ ¬ b < a`). -/
def pyStrLe (a b : String) : Bool := !(pyStrLt b a)

/-- Insertion step of the stable ascending insertion sort implementing
Python `sorted` on strings. -/
def pyInsert (a : String) : List String → List String
  | [] => [a]
  | b :: l => if pyStrLe a b then a :: b :: l else b :: pyInsert a l

/-- Python `sorted` on a list of strings: the stable ascending sort
under lexicographic string comparison.  (On a linear order every
correct sort computes the same list; an insertion sort is used so that
the function evaluates by kernel reduction.) -/
def pySorted (l : List String) : List String := l.foldr pyInsert []

/-! ## solvers/rsa.py: `RSASolver` -/

/-- Python exceptions surfacing from `RSASolver.guess`. -/
inductive PyError where
  /-- PEP 479: a `StopIteration` raised inside a generator body is
  replaced by `RuntimeError` when it would propagate out (Python ≥ 3.7;
  this repository needs ≥ 3.12 for its f-strings). -/
  | runtimeError
  /-- `heappop` from an empty heap. -/
  | indexError
deriving DecidableEq, Repr

/-- The `for i, word in enumerate(word_bank[:-group_size+1])` loop of
`RSASolver._generate_groups`, for `group_size ≥ 2`:

```python
for i, word in enumerate(word_bank[:-group_size+1]):
    yield from [
        [word] + sub_group
        for sub_group in RSASolver._generate_groups(word_bank[i+1:], group_size-1)
    ]
```

`recur` is the recursive call at `group_size - 1`.  Each iteration first
builds the list comprehension, which consumes the entire sub-generator:
if the sub-generator run ends in an error (second component `true`), the
comprehension re-raises before producing its list, so nothing from that
iteration is yielded and the enclosing generator run itself ends in an
error.  Otherwise the comprehension items are yielded and the loop
continues. -/
def ggLoop (recur : List String → List (List String) × Bool) (bank : List String) :
    List (Nat × String) → List (List String) × Bool
  | [] => ([], false)
  | (i, w) :: rest =>
    let sub := recur (bank.drop (i + 1))
    if sub.2 then ([], true)
    else
      let more := ggLoop recur bank rest
      (sub.1.map (fun sub_group => w :: sub_group) ++ more.1, more.2)

/-- From `rsa.py`, `RSASolver._generate_groups`, under the *actual*
semantics of the Python the repository runs on (≥ 3.7, PEP 479):

```python
if group_size == 1:
    yield from ([word] for word in word_bank)
    raise StopIteration
for i, word in enumerate(word_bank[:-group_size+1]):
    yield from [[word] + sub_group for sub_group in _generate_groups(word_bank[i+1:], group_size-1)]
```

A run of the generator is modelled as the pair (list of yielded groups,
did the run end in `RuntimeError`).  For `group_size == 1` the explicit
`raise StopIteration` propagates out of the generator frame after the
singletons have been yielded, which PEP 479 converts to `RuntimeError`,
so the run ends in an error.  For `group_size ≥ 2` the slice
`word_bank[:-group_size+1]` is the first `len(word_bank) - (group_size-1)`
words (empty when the bank is shorter).  `group_size = 0` loops over
`word_bank[:1]` and recurses at ever more negative sizes, each
recursion dropping a word, yielding nothing and never reaching the
`group_size == 1` branch, so it produces `([], False)`; we record that
result directly.  (The two arguments are taken in the order
`(group_size, word_bank)` — the reverse of the Python signature — so
that the recursion on the group size is structural.) -/
def generate_groups : Nat → List String → List (List String) × Bool
  | 0, _ => ([], false)
  | 1, bank => (bank.map (fun word => [word]), true)
  | gsize + 2, bank =>
    ggLoop (generate_groups (gsize + 1)) bank
      ((bank.take (bank.length - (gsize + 1))).enum)

/-- Modelled from the spec: the *intended* semantics of
`RSASolver._generate_groups` (§4.3 "enumerate all C(n, group_size)
subsets ... generated by index recursion"), i.e. the same recursion
under pre-PEP-479 generator semantics, where the final
`raise StopIteration` merely terminates the `group_size == 1` generator
instead of aborting the whole enumeration.  Identical to
`generate_groups` except that no run ends in an error, so every
iteration of the loop contributes its groups (same argument order as
`generate_groups`). -/
def generate_groups_intended : Nat → List String → List (List String)
  | 0, _ => []
  | 1, bank => bank.map (fun word => [word])
  | gsize + 2, bank =>
    ((bank.take (bank.length - (gsize + 1))).enum).flatMap
      (fun p => (generate_groups_intended (gsize + 1) (bank.drop (p.1 + 1))).map
        (fun sub_group => p.2 :: sub_group))

/-- Head/tail restatement of `generate_groups_intended`, used by the
proofs: choosing a subset of size `k` from `a :: l` means either taking
`a` and `k - 1` words of `l`, or taking `k` words of `l`.
`intended_eq_combs` below proves it equal to the intended generator for
every positive group size. -/
def combs : Nat → List String → List (List String)
  | 0, _ => [[]]
  | _ + 1, [] => []
  | k + 1, a :: l => (combs k l).map (fun g => a :: g) ++ combs (k + 1) l

/-- Python `<` on lists of strings: lexicographic, element by element,
with a strict prefix comparing smaller. -/
def pyStrListLt : List String → List String → Bool
  | [], [] => false
  | [], _ :: _ => true
  | _ :: _, [] => false
  | a :: as, b :: bs => if pyStrLt a b then true else if pyStrLt b a then false else pyStrListLt as bs

/-- Python `<` on `(cost, group)` tuples as compared inside `heapq`:
first by cost, then by the word list. -/
def pyPairLt (a b : Nat × List String) : Bool :=
  decide (a.1 < b.1) || (decide (a.1 = b.1) && pyStrListLt a.2 b.2)

/-- The net effect of `heappush`-ing every `(cost, group)` pair of a
list onto an empty heap and then `heappop`-ing once: the minimum pair
under Python tuple comparison (`heappop` on an empty heap raises
`IndexError`, the `none` case).  Pairs comparing equal are equal as
values, so keeping the first suffices. -/
def heapMin (l : List (Nat × List String)) : Option (Nat × List String) :=
  l.foldl (fun acc x =>
    match acc with
    | none => some x
    | some m => if pyPairLt x m then some x else some m) none

/-- From `rsa.py`, `RSASolver.guess`:

```python
error_heap: list[tuple[int, list[str]]] = []
for proposed_group in RSASolver._generate_groups(word_bank, group_size):
    group_cost = self._evaluate_group(word_bank, proposed_group, metrics)
    heappush(error_heap, (group_cost, proposed_group))
most_correct_guess = heappop(error_heap)
cost, words = most_correct_guess
return tuple(words)
```

`_evaluate_group` consists of LLM round-trips (speaker S1, listeners L0
and L1) and is modelled as the cost oracle `cost`.  If the generator
run ends in `RuntimeError`, the `for` loop re-raises it; if the
enumeration is empty, `heappop` raises `IndexError`. -/
def RSASolver.guess (cost : List String → Nat) (word_bank : List String)
    (group_size : Nat) : Except PyError (List String) :=
  let gen := generate_groups group_size word_bank
  if gen.2 then .error .runtimeError
  else
    match heapMin (gen.1.map (fun proposed_group => (cost proposed_group, proposed_group))) with
    | none => .error .indexError
    | some mc => .ok mc.2

/-! ## solvers/gvc.py: `GVCSolver.guess` -/

/-- Outcome of `GVCSolver.guess` (`gvc.py`): a consensus guess is
returned; or a `ValueError` propagates (from a parse failure of the
guesser/validator reply, re-raised by the `except` blocks, or from
consensus exhaustion at the last attempt); or — only possible when
`max_retries < 1` — the `for` loop body never runs and Python falls off
the end of the function, returning `None`. -/
inductive GvcResult where
  | consensus (group : List String) (category : String)
  | valueError
  | fellThrough
deriving DecidableEq, Repr

/-- The `for attempt in range(1, max_retries + 1)` loop of
`GVCSolver.guess`, over the list of remaining attempt numbers.  The
oracles model the three LLM agents of one round, already composed with
their reply parsers: `guesser attempt` is the parsed
`(guesser_group, guesser_category)` (`none` when `parse_guesser_reply`
raises `ValueError`, which the method re-raises), `validator attempt`
the parsed validator group (likewise), and `consensus attempt` the
boolean from `parse_consensus_reply`.  On consensus the guess is
returned; otherwise, when `attempt == max_retries`,
`ValueError("Consensus not reached after maximum retries. ...")` is
raised. -/
def gvcRounds (guesser : Nat → Option (List String × String))
    (validator : Nat → Option (List String))
    (consensus : Nat → Bool) (maxRetries : Nat) : List Nat → GvcResult
  | [] => .fellThrough
  | attempt :: rest =>
    match guesser attempt with
    | none => .valueError
    | some gc =>
      match validator attempt with
      | none => .valueError
      | some _ =>
        if consensus attempt then .consensus gc.1 gc.2
        else if attempt = maxRetries then .valueError
        else gvcRounds guesser validator consensus maxRetries rest

/-- From `gvc.py`, `GVCSolver.guess` (the source fixes
`max_retries = 15`; it is kept as a parameter here and instantiated with
15 where the concrete solver is meant). -/
def GVCSolver.guess (guesser : Nat → Option (List String × String))
    (validator : Nat → Option (List String))
    (consensus : Nat → Bool) (maxRetries : Nat) : GvcResult :=
  gvcRounds guesser validator consensus maxRetries (List.range' 1 maxRetries)

/-! ## solvers/snap_gvc.py: `SGVCSolver` -/

/-- From `snap_gvc.py`, the normalization applied to every word before
comparison: `word.strip().upper().replace(",", "")` — strip surrounding
whitespace, uppercase, delete every comma.  Implemented character-wise
(`Char.toUpper` agrees with Python `str.upper` on the ASCII game words;
`replace(",", "")` with a one-character pattern is exactly a filter). -/
def normalizeWord (w : String) : String :=
  String.mk ((((w.data.dropWhile Char.isWhitespace).reverse.dropWhile
    Char.isWhitespace).reverse.map Char.toUpper).filter (fun c => c ≠ ','))

/-- From `snap_gvc.py`, `SGVCSolver.grounding_check`:

```python
processed_guess = [word.strip().upper().replace(",", "") for word in guess]
processed_remaining_words = [... for word in remaining_words]
processed_sorted_failed_guesses = [[...] for guess in self.sorted_failed_guesses]
error = ""
list_of_wrong_words = [w for w in processed_guess if w not in processed_remaining_words]
if len(list_of_wrong_words) > 0: return False, error₁
if len(processed_guess) != group_size: return False, error₂
if len(processed_sorted_failed_guesses) > 0:
    sorted_guess = sorted(processed_guess)
    for failed_guesses in processed_sorted_failed_guesses:
        same_words = #{positions where zip(sorted_guess, failed_guesses) agree}
        if same_words == group_size: return False, error₃
return True, error
```

Purely structural — no agent is consulted.  The Python error messages
interpolate the offending values; the exact rendering is abstracted here
(the specification depends only on the reasons being non-empty and
human-readable). -/
def SGVCSolver.grounding_check (guess remaining_words : List String)
    (group_size : Nat) (sorted_failed_guesses : List (List String)) : Bool × String :=
  let processed_guess := guess.map normalizeWord
  let processed_remaining_words := remaining_words.map normalizeWord
  let processed_sorted_failed_guesses := sorted_failed_guesses.map (List.map normalizeWord)
  let list_of_wrong_words := processed_guess.filter
    (fun word => !processed_remaining_words.contains word)
  if list_of_wrong_words.length > 0 then
    (false, "Validator Disagrees: some words are not in Remaining Words.\n")
  else if processed_guess.length ≠ group_size then
    (false, "Validator Disagrees: the guess does not contain exactly group_size words.\n")
  else if processed_sorted_failed_guesses.length > 0 then
    let sorted_guess := pySorted processed_guess
    if processed_sorted_failed_guesses.any (fun failed_guesses =>
        ((sorted_guess.zip failed_guesses).countP (fun p => p.1 == p.2)) = group_size) then
      (false, "Validator Disagrees: the guess repeats a previously failed grouping.\n")
    else (true, "")
  else (true, "")

/-- The observable outcome of one attempt of the `SGVCSolver.guess`
retry loop (see `sgvcRounds` for the loop itself). -/
inductive SgvcRound where
  /-- `parse_guesser_reply` raised; the method returns the
  `(("Error","Error"),"Error")` tuple. -/
  | guesserParseError
  /-- `len(remaining_words) == group_size` and the guess is grounded:
  returned immediately, validator not consulted. -/
  | acceptFinal (group : List String) (category : String)
  /-- `len(remaining_words) == group_size` and the guess is not
  grounded: rejected, validator not consulted. -/
  | rejectFinalUngrounded (reason : String)
  /-- `parse_validator_reply` raised; the method returns the
  `(("Error","Error"),"Error")` tuple. -/
  | validatorParseError
  /-- the validator agreed: the guess is returned. -/
  | accept (group : List String) (category : String)
  /-- the validator disagreed: rejected with its feedback. -/
  | rejectDisagree (feedback : String)
  /-- the grounding check failed: rejected with its reason, validator
  not consulted. -/
  | rejectUngrounded (reason : String)
deriving DecidableEq, Repr

/-- One attempt of the `for attempt in range(1, self.max_retries + 1)`
loop of `SGVCSolver.guess` (`snap_gvc.py`):

* the guesser agent replies and `parse_guesser_reply` extracts
  `(guesser_group, guesser_category)` — modelled, parser included, by
  `guesserOracle attempt` (`none` = `ValueError` from the parser);
* `guesser_group` is normalized word-by-word and sorted;
* `grounding_check(guesser_group, remaining_words, group_size)` runs;
* if `len(remaining_words) == group_size`: return the guess when
  grounded, otherwise reject with the grounding reason — in both cases
  without consulting the validator;
* otherwise, when grounded, the validator agent replies and
  `parse_validator_reply` extracts `(agreement, validator_feedback)` —
  modelled by `validatorOracle attempt`; agreement returns the guess,
  disagreement rejects with the feedback;
* when not grounded, reject with the grounding reason (validator not
  consulted).

The ring buffer of rejected guesses and the carried feedback only shape
the next prompts, which are inputs of the oracles; the failure ledger
`sorted_failed_guesses` is only appended to by `play`, between `guess`
calls, so it is a constant during one call. -/
def sgvcRound (guesserOracle : Nat → Option (List String × String))
    (validatorOracle : Nat → Option (Bool × String))
    (remaining_words : List String) (group_size : Nat)
    (sorted_failed_guesses : List (List String)) (attempt : Nat) : SgvcRound :=
  match guesserOracle attempt with
  | none => .guesserParseError
  | some gc =>
    let guesser_group := pySorted (gc.1.map normalizeWord)
    let grounded := SGVCSolver.grounding_check guesser_group remaining_words
      group_size sorted_failed_guesses
    if remaining_words.length = group_size then
      if grounded.1 then .acceptFinal guesser_group gc.2
      else .rejectFinalUngrounded grounded.2
    else
      if grounded.1 then
        match validatorOracle attempt with
        | none => .validatorParseError
        | some av =>
          if av.1 then .accept guesser_group gc.2
          else .rejectDisagree av.2
      else .rejectUngrounded grounded.2

/-- Result of `SGVCSolver.guess`: an accepted `(group, category)` pair,
the `(("Error","Error"),"Error")` early return after a parse failure, or
the `(("None","None"),"None")` fallback returned after the loop
exhausts its `max_retries` attempts. -/
inductive SgvcResult where
  | accepted (group : List String) (category : String)
  | errorReply
  | fallbackNone
deriving DecidableEq, Repr

/-- The retry loop of `SGVCSolver.guess` over the list of remaining
attempt numbers, instrumented (second component) with the number of
attempts actually executed — ghost information used to state the
round-count properties; the Python returns only the result. -/
def sgvcRounds (guesserOracle : Nat → Option (List String × String))
    (validatorOracle : Nat → Option (Bool × String))
    (remaining_words : List String) (group_size : Nat)
    (sorted_failed_guesses : List (List String)) : List Nat → SgvcResult × Nat
  | [] => (.fallbackNone, 0)
  | attempt :: rest =>
    match sgvcRound guesserOracle validatorOracle remaining_words group_size
        sorted_failed_guesses attempt with
    | .guesserParseError => (.errorReply, 1)
    | .validatorParseError => (.errorReply, 1)
    | .acceptFinal g c => (.accepted g c, 1)
    | .accept g c => (.accepted g c, 1)
    | .rejectFinalUngrounded _ =>
      let r := sgvcRounds guesserOracle validatorOracle remaining_words group_size
        sorted_failed_guesses rest
      (r.1, r.2 + 1)
    | .rejectDisagree _ =>
      let r := sgvcRounds guesserOracle validatorOracle remaining_words group_size
        sorted_failed_guesses rest
      (r.1, r.2 + 1)
    | .rejectUngrounded _ =>
      let r := sgvcRounds guesserOracle validatorOracle remaining_words group_size
        sorted_failed_guesses rest
      (r.1, r.2 + 1)

/-- From `snap_gvc.py`, `SGVCSolver.guess` (the constructor fixes
`self.max_retries = 15`; kept as a parameter and instantiated with 15
where the concrete solver is meant), with the ghost attempt counter of
`sgvcRounds`. -/
def SGVCSolver.guess (guesserOracle : Nat → Option (List String × String))
    (validatorOracle : Nat → Option (Bool × String))
    (remaining_words : List String) (group_size : Nat)
    (sorted_failed_guesses : List (List String)) (max_retries : Nat) : SgvcResult × Nat :=
  sgvcRounds guesserOracle validatorOracle remaining_words group_size
    sorted_failed_guesses (List.range' 1 max_retries)

/-! ## Concrete sample data -/

/-- From `game.py`, `load_daily_board`: the first category of the test
board. -/
def catWet : Category := ⟨0, "WET WEATHER", ["HAIL", "RAIN", "SLEET", "SNOW"]⟩

/-- From `game.py`, `load_daily_board`: the second category of the test
board. -/
def catNba : Category := ⟨1, "NBA TEAMS", ["BUCKS", "HEAT", "JAZZ", "NETS"]⟩

/-- A small `Connections` game over the first two `load_daily_board`
categories, with `max_strikes = 4`, used as a concrete input for
witnesses. -/
def sampleGame : Connections := ⟨4, 0, [catWet, catNba]⟩

/-!
## Theorems

First general lemmas about the embedded definitions, then one theorem
per specification claim (with witnesses / counterexamples).
-/

/-- `Category.matchesWords` is set equality of the two word lists. -/
theorem Category.matchesWords_iff (c : Category) (words : List String) :
    c.matchesWords words = true ↔ (∀ w, w ∈ words ↔ w ∈ c.members) := by
  simp only [Category.matchesWords, Bool.and_eq_true, List.all_eq_true,
    List.contains, List.elem_iff]
  constructor
  · rintro ⟨h₁, h₂⟩ w
    exact ⟨fun hw => h₁ w hw, fun hw => h₂ w hw⟩
  · intro h
    exact ⟨fun w hw => (h w).1 hw, fun w hw => (h w).2 hw⟩

theorem popFirstMatch_eq_none_iff (cats : List Category) (words : List String) :
    popFirstMatch cats words = none ↔ ∀ c ∈ cats, c.matchesWords words = false := by
  induction cats with
  | nil => simp [popFirstMatch]
  | cons c rest ih =>
    simp only [popFirstMatch]
    by_cases hc : c.matchesWords words
    · simp [hc]
    · simp only [hc, Bool.false_eq_true, reduceIte]
      cases hrec : popFirstMatch rest words with
      | some p =>
        constructor
        · intro h; simp at h
        · intro h
          have hnone : popFirstMatch rest words = none :=
            ih.2 (fun c' hc' => h c' (List.mem_cons_of_mem _ hc'))
          rw [hnone] at hrec
          simp at hrec
      | none =>
        simp only [true_iff]
        intro c' hc'
        rcases List.mem_cons.1 hc' with rfl | hmem
        · exact Bool.eq_false_iff.2 hc
        · exact (ih.1 hrec) c' hmem

/-- When `popFirstMatch` succeeds it splits the list around the *first*
matching element: everything before it fails to match, the returned
category matches, and the remainder is the original list with exactly
that one element removed, order preserved. -/
theorem popFirstMatch_eq_some (cats : List Category) (words : List String)
    (m : Category) (rest : List Category)
    (h : popFirstMatch cats words = some (m, rest)) :
    ∃ pre post,
      cats = pre ++ m :: post ∧
      rest = pre ++ post ∧
      (∀ c ∈ pre, c.matchesWords words = false) ∧
      m.matchesWords words = true := by
  induction cats generalizing rest with
  | nil => simp [popFirstMatch] at h
  | cons c tail ih =>
    simp only [popFirstMatch] at h
    by_cases hc : c.matchesWords words
    · simp only [hc, reduceIte, Option.some.injEq, Prod.mk.injEq] at h
      obtain ⟨rfl, rfl⟩ := h
      exact ⟨[], tail, by simp, by simp, by simp, hc⟩
    · simp only [hc, Bool.false_eq_true, reduceIte] at h
      cases hrec : popFirstMatch tail words with
      | none => rw [hrec] at h; exact absurd h (by simp)
      | some p =>
        rw [hrec] at h
        obtain ⟨m', rest'⟩ := p
        simp only [Option.some.injEq, Prod.mk.injEq] at h
        obtain ⟨rfl, rfl⟩ := h
        obtain ⟨pre, post, h₁, h₂, h₃, h₄⟩ := ih rest' hrec
        refine ⟨c :: pre, post, by simp [h₁], by simp [h₂], ?_, h₄⟩
        intro c' hc'
        rcases List.mem_cons.1 hc' with rfl | hmem
        · exact Bool.eq_false_iff.2 hc
        · exact h₃ c' hmem

/-! ### Claim C1 -/

/-- **C1.** For every `Connections` game and guessed word list, a
`category_guess_check` call that does not raise removes at most one
`Category` from the active set (the `none` outcome leaves the set
unchanged, the `some` outcome removes exactly the returned category);
when it returns a `Category`, that category's member set exactly equals
the guessed words as a set, and among all structurally matching active
categories the first in insertion order is the one removed and
returned (everything before it in the list fails to match). -/
theorem category_guess_check_first_match (g : Connections) (words : List String)
    (r : Option Category) (g' : Connections)
    (h : g.category_guess_check words = .ok (r, g')) :
    (r = none → g'.categories = g.categories) ∧
    (∀ c, r = some c →
      (∀ w, w ∈ words ↔ w ∈ c.members) ∧
      ∃ pre post,
        g.categories = pre ++ c :: post ∧
        g'.categories = pre ++ post ∧
        ∀ c' ∈ pre, c'.matchesWords words = false) := by
  rw [Connections.category_guess_check] at h
  by_cases hs : g.maxStrikes ≤ g.currentStrikes
  · rw [if_pos hs] at h
    exact absurd h (by simp)
  · rw [if_neg hs] at h
    cases hp : popFirstMatch g.categories words with
    | none =>
      rw [hp] at h
      simp only [Except.ok.injEq, Prod.mk.injEq] at h
      obtain ⟨hr, hg⟩ := h
      subst hr
      subst hg
      exact ⟨fun _ => rfl, fun c hc => by simp at hc⟩
    | some p =>
      obtain ⟨c, rest⟩ := p
      rw [hp] at h
      simp only [Except.ok.injEq, Prod.mk.injEq] at h
      obtain ⟨hr, hg⟩ := h
      subst hr
      subst hg
      refine ⟨fun hno => by simp at hno, fun c' hc' => ?_⟩
      obtain rfl : c = c' := by simpa using hc'
      obtain ⟨pre, post, h₁, h₂, h₃, h₄⟩ := popFirstMatch_eq_some _ _ _ _ hp
      exact ⟨(Category.matchesWords_iff c words).1 h₄, pre, post, h₁, h₂, h₃⟩

/-- Witness for C1: on the two-category sample game, guessing the NBA
members (in scrambled order) removes and returns exactly the NBA
category, the first (and only) structural match. -/
theorem category_guess_check_first_match_witness :
    ((some catNba = none →
        ([catWet] : List Category) = [catWet, catNba]) ∧
     (∀ c, some catNba = some c →
        (∀ w, w ∈ ["NETS", "BUCKS", "JAZZ", "HEAT"] ↔ w ∈ c.members) ∧
        ∃ pre post,
          [catWet, catNba] = pre ++ c :: post ∧
          ([catWet] : List Category) = pre ++ post ∧
          ∀ c' ∈ pre, c'.matchesWords ["NETS", "BUCKS", "JAZZ", "HEAT"] = false)) :=
  category_guess_check_first_match sampleGame ["NETS", "BUCKS", "JAZZ", "HEAT"]
    (some catNba) ⟨4, 0, [catWet]⟩ rfl

/-! ### Claim C2 -/

/-- **C2.** `category_guess_check` raises `GameOverException` if and
only if `current_strikes ≥ max_strikes` at the moment of the call;
otherwise, if the guessed words match no active category, it increments
`current_strikes` by exactly one and returns `None` — a normal "no
match" outcome, not an error. -/
theorem category_guess_check_game_over_iff (g : Connections) (words : List String) :
    (g.category_guess_check words = .error .gameOver ↔
      g.maxStrikes ≤ g.currentStrikes) ∧
    (g.currentStrikes < g.maxStrikes →
      (∀ c ∈ g.categories, c.matchesWords words = false) →
      g.category_guess_check words =
        .ok (none, { g with currentStrikes := g.currentStrikes + 1 })) := by
  constructor
  · rw [Connections.category_guess_check]
    by_cases hs : g.maxStrikes ≤ g.currentStrikes
    · simp [hs]
    · rw [if_neg hs]
      cases hp : popFirstMatch g.categories words <;> simp [hs]
  · intro hlt hnone
    rw [Connections.category_guess_check, if_neg (Nat.not_le.2 hlt),
      (popFirstMatch_eq_none_iff _ _).2 hnone]

/-- Witness for C2: on the sample game (0 of 4 strikes), a guess
matching nothing does not raise and bumps the strike count to 1. -/
theorem category_guess_check_game_over_iff_witness :
    (sampleGame.category_guess_check ["HAIL", "RAIN", "SLEET", "KAYAK"] =
        .error .gameOver ↔ (4 : Nat) ≤ 0) ∧
    sampleGame.category_guess_check ["HAIL", "RAIN", "SLEET", "KAYAK"] =
      .ok (none, ⟨4, 1, [catWet, catNba]⟩) :=
  ⟨(category_guess_check_game_over_iff sampleGame _).1,
   (category_guess_check_game_over_iff sampleGame _).2 (by decide) (by decide)⟩

/-! ### Claim C3 -/

/-- One `guessStep` preserves the strike bound (and never touches
`maxStrikes`). -/
theorem guessStep_strikes_le (g : Connections) (words : List String)
    (h : g.currentStrikes ≤ g.maxStrikes) :
    (g.guessStep words).currentStrikes ≤ (g.guessStep words).maxStrikes ∧
    (g.guessStep words).maxStrikes = g.maxStrikes := by
  rw [Connections.guessStep, Connections.category_guess_check]
  by_cases hs : g.maxStrikes ≤ g.currentStrikes
  · rw [if_pos hs]
    exact ⟨h, rfl⟩
  · rw [if_neg hs]
    cases hp : popFirstMatch g.categories words with
    | none => exact ⟨Nat.succ_le_of_lt (Nat.lt_of_not_le hs), rfl⟩
    | some p => exact ⟨h, rfl⟩

/-- **C3.** For every game whose starting strike count does not exceed
`max_strikes`, after any sequence of `category_guess_check` calls
(raising calls included), `current_strikes` never exceeds
`max_strikes`. -/
theorem runGuesses_strikes_le (g : Connections) (l : List (List String))
    (h : g.currentStrikes ≤ g.maxStrikes) :
    (g.runGuesses l).currentStrikes ≤ (g.runGuesses l).maxStrikes ∧
    (g.runGuesses l).maxStrikes = g.maxStrikes := by
  induction l generalizing g with
  | nil => exact ⟨h, rfl⟩
  | cons ws rest ih =>
    obtain ⟨h₁, h₂⟩ := guessStep_strikes_le g ws h
    have := ih (g.guessStep ws) (h₂ ▸ h₁)
    exact ⟨this.1, this.2.trans h₂⟩

/-- Witness for C3: five wrong guesses on the sample game (one more
than `max_strikes = 4`; the fifth raises) leave the strike count at the
bound, not beyond it. -/
theorem runGuesses_strikes_le_witness :
    (0 : Nat) ≤ 4 ∧
    ((sampleGame.runGuesses
        (List.replicate 5 ["HAIL", "RAIN", "SLEET", "KAYAK"])).currentStrikes ≤
      (sampleGame.runGuesses
        (List.replicate 5 ["HAIL", "RAIN", "SLEET", "KAYAK"])).maxStrikes) :=
  ⟨by decide,
   (runGuesses_strikes_le sampleGame
     (List.replicate 5 ["HAIL", "RAIN", "SLEET", "KAYAK"]) (by decide)).1⟩

/-! ### Claim C9 -/

/-- **C9.** Frame conditions of `category_guess_check`: when it returns
`None` (wrong guess) the active category list is left completely
unchanged (same categories, same order) and only the strike count
moves; when it returns a `Category`, `current_strikes` is unchanged and
the remaining active categories keep their relative order (the new
list is the old one with the single returned element removed
in place).  `maxStrikes` is never written. -/
theorem category_guess_check_frame (g : Connections) (words : List String)
    (r : Option Category) (g' : Connections)
    (h : g.category_guess_check words = .ok (r, g')) :
    g'.maxStrikes = g.maxStrikes ∧
    (r = none →
      g'.categories = g.categories ∧
      g'.currentStrikes = g.currentStrikes + 1) ∧
    (∀ c, r = some c →
      g'.currentStrikes = g.currentStrikes ∧
      ∃ pre post, g.categories = pre ++ c :: post ∧ g'.categories = pre ++ post) := by
  rw [Connections.category_guess_check] at h
  by_cases hs : g.maxStrikes ≤ g.currentStrikes
  · rw [if_pos hs] at h
    exact absurd h (by simp)
  · rw [if_neg hs] at h
    cases hp : popFirstMatch g.categories words with
    | none =>
      rw [hp] at h
      simp only [Except.ok.injEq, Prod.mk.injEq] at h
      obtain ⟨hr, hg⟩ := h
      subst hr
      subst hg
      exact ⟨rfl, fun _ => ⟨rfl, rfl⟩, fun c hc => by simp at hc⟩
    | some p =>
      obtain ⟨c, rest⟩ := p
      rw [hp] at h
      simp only [Except.ok.injEq, Prod.mk.injEq] at h
      obtain ⟨hr, hg⟩ := h
      subst hr
      subst hg
      refine ⟨rfl, fun hno => by simp at hno, fun c' hc' => ?_⟩
      obtain rfl : c = c' := by simpa using hc'
      obtain ⟨pre, post, h₁, h₂, _, _⟩ := popFirstMatch_eq_some _ _ _ _ hp
      exact ⟨rfl, pre, post, h₁, h₂⟩

/-- Witness for C9: a wrong guess on the sample game leaves the
category list untouched and only bumps the strike count. -/
theorem category_guess_check_frame_witness :
    (4 : Nat) = 4 ∧
    ((none : Option Category) = none →
      ([catWet, catNba] : List Category) = [catWet, catNba] ∧ (1 : Nat) = 0 + 1) ∧
    (∀ c, (none : Option Category) = some c →
      (1 : Nat) = 0 ∧
      ∃ pre post, ([catWet, catNba] : List Category) = pre ++ c :: post ∧
        ([catWet, catNba] : List Category) = pre ++ post) :=
  category_guess_check_frame sampleGame ["HAIL", "RAIN", "SLEET", "KAYAK"]
    none ⟨4, 1, [catWet, catNba]⟩ rfl

/-! ### Claim C10 -/

theorem add_solve_preserves_inv (m : Metrics) (level : Nat)
    (hm : MetricsSolveInv m) :
    MetricsSolveInv ((m.add_solve level).getD m) ∧
    ((m.add_solve level).getD m).points_per_correct = m.points_per_correct := by
  obtain ⟨hnd, hpts, hmem⟩ := hm
  rw [Metrics.add_solve]
  cases hl : m.solves[level]? with
  | none => exact ⟨⟨hnd, hpts, hmem⟩, rfl⟩
  | some b =>
    cases b with
    | true => exact ⟨⟨hnd, hpts, hmem⟩, rfl⟩
    | false =>
      have hlen : level < m.solves.length := (List.getElem?_eq_some_iff.1 hl).1
      have hnotmem : level ∉ m.solve_order := by
        intro hc
        have := (hmem level).1 hc
        rw [List.getD_eq_getElem?_getD, hl] at this
        simp at this
      refine ⟨⟨?_, ?_, ?_⟩, rfl⟩
      · simpa [List.nodup_append] using ⟨hnd, fun hc => hnotmem hc⟩
      · simp [hpts, Nat.mul_add]
      · intro l
        by_cases hll : l = level
        · subst hll
          simp [List.getD_eq_getElem?_getD, List.getElem?_set_self hlen]
        · simp only [Option.getD_some, List.mem_append, List.mem_singleton, hll, or_false]
          rw [hmem l, List.getD_eq_getElem?_getD, List.getD_eq_getElem?_getD,
            List.getElem?_set_ne (fun h => hll h.symm)]

/-- **C10.** `Metrics.add_solve` is idempotent — once a level is
recorded, a further call with that level changes nothing — and along
any sequence of `add_solve` calls from a fresh `Metrics()`,
`solve_order` never contains duplicate levels and `points` always
equals `points_per_correct` times the number of distinct solved levels
(the length of the duplicate-free `solve_order`, which lists exactly
the levels whose `solves` flag is set). -/
theorem add_solve_idempotent_and_points :
    (∀ (m : Metrics) (level : Nat) (m' : Metrics),
      m.add_solve level = some m' → m'.add_solve level = some m') ∧
    (∀ ls : List Nat,
      (Metrics.init.runSolves ls).solve_order.Nodup ∧
      (Metrics.init.runSolves ls).points =
        (Metrics.init.runSolves ls).points_per_correct *
          (Metrics.init.runSolves ls).solve_order.length ∧
      (∀ l, l ∈ (Metrics.init.runSolves ls).solve_order ↔
        (Metrics.init.runSolves ls).solves.getD l false = true)) := by
  constructor
  · intro m level m' h
    rw [Metrics.add_solve] at h
    cases hl : m.solves[level]? with
    | none => rw [hl] at h; simp at h
    | some b =>
      have hlen : level < m.solves.length := (List.getElem?_eq_some_iff.1 hl).1
      cases b with
      | true =>
        rw [hl] at h
        simp only [Option.some.injEq] at h
        subst h
        rw [Metrics.add_solve, hl]
      | false =>
        rw [hl] at h
        simp only [Option.some.injEq] at h
        subst h
        rw [Metrics.add_solve]
        simp [List.getElem?_set_self hlen]
  · intro ls
    suffices h : ∀ (m : Metrics), MetricsSolveInv m → MetricsSolveInv (m.runSolves ls) by
      exact h Metrics.init ⟨by simp [Metrics.init], by simp [Metrics.init], by
        intro l
        simp only [Metrics.init]
        constructor
        · intro hc; simp at hc
        · intro hc
          rcases l with _ | _ | _ | _ | l <;> simp_all [List.getD_eq_getElem?_getD]⟩
    intro m hm
    induction ls generalizing m with
    | nil => exact hm
    | cons l rest ih =>
      exact ih _ (add_solve_preserves_inv m l hm).1

/-- Witness for C10: recording level 2 twice from a fresh accumulator
is the same as recording it once, and the run `[2, 2, 0]` yields a
duplicate-free solve order. -/
theorem add_solve_idempotent_and_points_witness :
    (Metrics.mk 4 5 [false, false, true, false] [2] 5 0).add_solve 2 =
      some (Metrics.mk 4 5 [false, false, true, false] [2] 5 0) ∧
    (Metrics.init.runSolves [2, 2, 0]).solve_order.Nodup ∧
    (Metrics.init.runSolves [2, 2, 0]).points =
      (Metrics.init.runSolves [2, 2, 0]).points_per_correct *
        (Metrics.init.runSolves [2, 2, 0]).solve_order.length :=
  ⟨add_solve_idempotent_and_points.1 Metrics.init 2
      (Metrics.mk 4 5 [false, false, true, false] [2] 5 0) (by decide),
   (add_solve_idempotent_and_points.2 [2, 2, 0]).1,
   (add_solve_idempotent_and_points.2 [2, 2, 0]).2.1⟩

/-! ### Claim C8 -/

/-- The `[0,1]` bound survives one incremental-average update
`((k-1)·a + x) / k` with `k ≥ 1` and a new sample `x ∈ [0,1]`. -/
theorem incremental_average_mem_unit (k : Nat) (a x : ℚ)
    (hk : k ≠ 0) (ha₀ : 0 ≤ a) (ha₁ : a ≤ 1) (hx₀ : 0 ≤ x) (hx₁ : x ≤ 1) :
    0 ≤ ((k : ℚ) - 1) * a + x ∧ ((k : ℚ) - 1) * a + x ≤ (k : ℚ) := by
  have hk1 : (1 : ℚ) ≤ (k : ℚ) := by
    exact_mod_cast Nat.one_le_iff_ne_zero.2 hk
  constructor
  · have : (0 : ℚ) ≤ ((k : ℚ) - 1) * a := by
      apply mul_nonneg (by linarith) ha₀
    linarith
  · have : ((k : ℚ) - 1) * a ≤ (k : ℚ) - 1 := by
      nlinarith
    linarith

/-- One `Metrics` event preserves `category_similarity ∈ [0,1]`, as
long as the embedding collaborator only produces dot products in
`[-1,1]`. -/
theorem metrics_step_similarity_mem (emb : String → String → ℚ)
    (hemb : ∀ a b, -1 ≤ emb a b ∧ emb a b ≤ 1) (m : Metrics) (e : MetricsEvent)
    (h₀ : 0 ≤ m.category_similarity) (h₁ : m.category_similarity ≤ 1) :
    0 ≤ (Metrics.step emb m e).category_similarity ∧
      (Metrics.step emb m e).category_similarity ≤ 1 := by
  cases e with
  | solve level =>
    rw [Metrics.step, Metrics.add_solve]
    cases hl : m.solves[level]? with
    | none => exact ⟨h₀, h₁⟩
    | some b => cases b <;> exact ⟨h₀, h₁⟩
  | cosSim g c =>
    rw [Metrics.step, Metrics.cosine_similarity_category]
    by_cases hk : m.solve_order.length = 0
    · simp only [hk, reduceIte]
      exact ⟨h₀, h₁⟩
    · simp only [hk, reduceIte, Option.getD_some]
      obtain ⟨hd₀, hd₁⟩ := hemb g c
      have hx₀ : (0 : ℚ) ≤ (emb g c + 1) / 2 := by linarith
      have hx₁ : (emb g c + 1) / 2 ≤ 1 := by linarith
      obtain ⟨hn₀, hn₁⟩ := incremental_average_mem_unit m.solve_order.length
        m.category_similarity ((emb g c + 1) / 2) hk h₀ h₁ hx₀ hx₁
      have hkpos : (0 : ℚ) < (m.solve_order.length : ℚ) := by
        exact_mod_cast Nat.pos_of_ne_zero hk
      constructor
      · exact div_nonneg hn₀ (le_of_lt hkpos)
      · rw [div_le_one hkpos]
        exact hn₁

/-- **C8.** For every sequence of `(guessed_label, true_label)` pairs
fed to `cosine_similarity_category` (interleaved with `add_solve`
calls, which set `k`, the number of solves so far, used by the
incremental-average update `avg' = ((k-1)·avg + x)/k`), the running
`category_similarity` stays within `[0,1]`, provided the embedding
collaborator produces dot products in `[-1,1]` (unit-norm embeddings),
so that each normalized sample `(dot+1)/2` lies in `[0,1]`. -/
theorem running_similarity_mem_unit_interval (emb : String → String → ℚ)
    (hemb : ∀ a b, -1 ≤ emb a b ∧ emb a b ≤ 1) (evs : List MetricsEvent) :
    0 ≤ (Metrics.run emb Metrics.init evs).category_similarity ∧
    (Metrics.run emb Metrics.init evs).category_similarity ≤ 1 := by
  suffices h : ∀ m : Metrics, 0 ≤ m.category_similarity → m.category_similarity ≤ 1 →
      0 ≤ (Metrics.run emb m evs).category_similarity ∧
      (Metrics.run emb m evs).category_similarity ≤ 1 by
    exact h Metrics.init (by simp [Metrics.init]) (by simp [Metrics.init])
  induction evs with
  | nil => exact fun m h₀ h₁ => ⟨h₀, h₁⟩
  | cons e rest ih =>
    intro m h₀ h₁
    obtain ⟨g₀, g₁⟩ := metrics_step_similarity_mem emb hemb m e h₀ h₁
    exact ih (Metrics.step emb m e) g₀ g₁

/-- Witness for C8: a constant-zero embedding oracle (dot products in
`[-1,1]`) over one solve followed by one similarity sample leaves the
running similarity inside `[0,1]`. -/
theorem running_similarity_mem_unit_interval_witness :
    (∀ _ _ : String, -1 ≤ (0 : ℚ) ∧ (0 : ℚ) ≤ 1) ∧
    (0 ≤ (Metrics.run (fun _ _ => (0 : ℚ)) Metrics.init
        [MetricsEvent.solve 0, MetricsEvent.cosSim "fish" "FISH"]).category_similarity ∧
     (Metrics.run (fun _ _ => (0 : ℚ)) Metrics.init
        [MetricsEvent.solve 0, MetricsEvent.cosSim "fish" "FISH"]).category_similarity ≤ 1) :=
  ⟨fun _ _ => by norm_num,
   running_similarity_mem_unit_interval (fun _ _ => 0) (fun _ _ => by norm_num) _⟩

/-! ### Claim C4 -/

/-- Reindexing a `flatMap` over an enumeration: starting the index one
later is the same as shifting the body by one. -/
theorem enumFrom_flatMap_succ {β : Type} (f : Nat → String → List β) :
    ∀ (l : List String) (j : Nat),
      (l.enumFrom (j + 1)).flatMap (fun p => f p.1 p.2) =
        (l.enumFrom j).flatMap (fun p => f (p.1 + 1) p.2) := by
  intro l
  induction l with
  | nil => intro j; rfl
  | cons w l ih =>
    intro j
    rw [List.enumFrom_cons, List.enumFrom_cons, List.flatMap_cons, List.flatMap_cons, ih (j + 1)]

/-- `generate_groups_intended` on `length < group size` (with positive
group size) enumerates nothing. -/
theorem generate_groups_intended_short (k : Nat) (l : List String)
    (hl : l.length < k + 1) : generate_groups_intended (k + 1) l = [] := by
  match k, l with
  | 0, l =>
    have : l = [] := List.length_eq_zero.1 (Nat.lt_one_iff.1 hl)
    subst this
    rfl
  | g + 1, l =>
    rw [generate_groups_intended]
    have : l.length - (g + 1) = 0 := Nat.sub_eq_zero_of_le (Nat.le_of_lt_succ hl)
    rw [this]
    simp

/-- The head decomposition of the intended generator: on `a :: tail`
with group size `≥ 2`, the loop iteration `i = 0` contributes the
groups led by `a`, and the remaining iterations are exactly the
enumeration over `tail`. -/
theorem generate_groups_intended_cons (g : Nat) (a : String) (tail : List String) :
    generate_groups_intended (g + 2) (a :: tail) =
      (generate_groups_intended (g + 1) tail).map (fun s => a :: s) ++
        generate_groups_intended (g + 2) tail := by
  by_cases hng : tail.length ≤ g
  · rw [generate_groups_intended]
    have h0 : (a :: tail).length - (g + 1) = 0 := by
      simp only [List.length_cons]
      omega
    rw [h0]
    have h1 : generate_groups_intended (g + 1) tail = [] :=
      generate_groups_intended_short g tail (Nat.lt_succ_of_le hng)
    have h2 : generate_groups_intended (g + 2) tail = [] :=
      generate_groups_intended_short (g + 1) tail (by omega)
    simp [h1, h2]
  · have hlt : g < tail.length := Nat.lt_of_not_le hng
    have htake : (a :: tail).length - (g + 1) = (tail.length - (g + 1)) + 1 := by
      simp only [List.length_cons]
      omega
    rw [generate_groups_intended, htake, List.take_succ_cons, List.enum_cons,
      List.flatMap_cons]
    congr 1
    have := enumFrom_flatMap_succ
      (fun i w => (generate_groups_intended (g + 1) ((a :: tail).drop (i + 1))).map
        (fun s => w :: s))
      (tail.take (tail.length - (g + 1))) 0
    rw [this]
    rw [generate_groups_intended]
    rfl

/-- For every positive group size, the intended generator computes the
head/tail combination recursion `combs`. -/
theorem generate_groups_intended_eq_combs :
    ∀ (l : List String) (k : Nat),
      generate_groups_intended (k + 1) l = combs (k + 1) l := by
  intro l
  induction l with
  | nil =>
    intro k
    cases k with
    | zero => rfl
    | succ g =>
      rw [combs, generate_groups_intended]
      simp
  | cons a tail ih =>
    intro k
    cases k with
    | zero =>
      rw [generate_groups_intended, combs, ← ih 0, generate_groups_intended]
      simp [combs]
    | succ g =>
      rw [generate_groups_intended_cons, combs, ih g, ih (g + 1)]

theorem length_combs : ∀ (l : List String) (k : Nat),
    (combs k l).length = Nat.choose l.length k := by
  intro l
  induction l with
  | nil =>
    intro k
    cases k with
    | zero => rfl
    | succ g => rfl
  | cons a tail ih =>
    intro k
    cases k with
    | zero => rfl
    | succ g =>
      rw [combs]
      simp only [List.length_append, List.length_map, ih g, ih (g + 1),
        List.length_cons]
      rw [Nat.choose_succ_succ]

theorem mem_combs : ∀ (l : List String) (k : Nat) (gp : List String),
    gp ∈ combs k l → gp.length = k ∧ gp.Sublist l := by
  intro l
  induction l with
  | nil =>
    intro k gp hgp
    cases k with
    | zero =>
      rw [combs] at hgp
      simp only [List.mem_singleton] at hgp
      subst hgp
      exact ⟨rfl, List.Sublist.refl _⟩
    | succ g =>
      rw [combs] at hgp
      simp at hgp
  | cons a tail ih =>
    intro k gp hgp
    cases k with
    | zero =>
      rw [combs] at hgp
      simp only [List.mem_singleton] at hgp
      subst hgp
      exact ⟨rfl, List.nil_sublist _⟩
    | succ g =>
      rw [combs] at hgp
      rcases List.mem_append.1 hgp with hmap | htail
      · obtain ⟨gp', hgp', rfl⟩ := List.mem_map.1 hmap
        obtain ⟨hlen, hsub⟩ := ih g gp' hgp'
        exact ⟨by simp [hlen], List.cons_sublist_cons.2 hsub⟩
      · obtain ⟨hlen, hsub⟩ := ih (g + 1) gp htail
        exact ⟨hlen, hsub.trans (List.sublist_cons_self a tail)⟩

theorem nodup_combs : ∀ (l : List String), l.Nodup → ∀ (k : Nat), (combs k l).Nodup := by
  intro l
  induction l with
  | nil =>
    intro _ k
    cases k with
    | zero => simp [combs]
    | succ g => simp [combs]
  | cons a tail ih =>
    intro hnd k
    obtain ⟨hna, hndt⟩ := List.nodup_cons.1 hnd
    cases k with
    | zero => simp [combs]
    | succ g =>
      rw [combs]
      refine List.Nodup.append ?_ (ih hndt (g + 1)) ?_
      · exact (ih hndt g).map List.cons_injective
      · intro gp hmap htail
        obtain ⟨gp', _, rfl⟩ := List.mem_map.1 hmap
        have hsub := (mem_combs tail (g + 1) _ htail).2
        exact hna (hsub.subset (List.mem_cons_self a gp'))

/-- The claimed enumeration properties hold of the *intended* generator
(pre-PEP-479 semantics): on a bank of `n` distinct words it yields
exactly `C(n,4)` groups, each a 4-element duplicate-free sublist of the
bank, with no group repeated, in the deterministic order induced by the
bank order. -/
theorem generate_groups_intended_spec (bank : List String) (hnd : bank.Nodup) :
    (generate_groups_intended 4 bank).length = Nat.choose bank.length 4 ∧
    (∀ gp ∈ generate_groups_intended 4 bank,
      gp.length = 4 ∧ gp.Nodup ∧ ∀ w ∈ gp, w ∈ bank) ∧
    (generate_groups_intended 4 bank).Nodup := by
  have heq : generate_groups_intended 4 bank = combs 4 bank :=
    generate_groups_intended_eq_combs bank 3
  refine ⟨by rw [heq]; exact length_combs bank 4, ?_, by rw [heq]; exact nodup_combs bank hnd 4⟩
  intro gp hgp
  rw [heq] at hgp
  obtain ⟨hlen, hsub⟩ := mem_combs bank 4 gp hgp
  exact ⟨hlen, hsub.nodup hnd, fun w hw => hsub.subset hw⟩

/-- Under the actual PEP-479 semantics, as soon as the bank has at
least `group_size ≥ 2` words the very first loop iteration exhausts the
recursive sub-generator, whose final `raise StopIteration` becomes a
`RuntimeError` that aborts the whole enumeration before anything is
yielded. -/
theorem generate_groups_err :
    ∀ (g : Nat) (bank : List String), g + 2 ≤ bank.length →
      generate_groups (g + 2) bank = ([], true) := by
  intro g
  induction g with
  | zero =>
    intro bank hlen
    match bank, hlen with
    | b :: rest, hlen =>
      rw [generate_groups]
      have : (b :: rest).length - 1 = rest.length := by simp
      rw [this]
      have hres : 1 ≤ rest.length := by
        simp only [List.length_cons] at hlen
        omega
      obtain ⟨m, hm⟩ : ∃ m, rest.length = m + 1 := ⟨rest.length - 1, by omega⟩
      rw [hm, List.take_succ_cons, List.enum_cons, ggLoop]
      simp [generate_groups]
  | succ g ih =>
    intro bank hlen
    match bank, hlen with
    | b :: rest, hlen =>
      rw [generate_groups]
      have hres : g + 2 ≤ rest.length := by
        simp only [List.length_cons] at hlen
        omega
      have : (b :: rest).length - (g + 2) = (rest.length - (g + 2)) + 1 := by
        simp only [List.length_cons]
        omega
      rw [this, List.take_succ_cons, List.enum_cons, ggLoop]
      simp only [List.drop_succ_cons, List.drop_zero]
      rw [ih rest hres]
      simp

/-- A bank shorter than the group size makes the enumeration empty (and
error-free: the loop body never runs). -/
theorem generate_groups_empty (g : Nat) (bank : List String)
    (hlen : bank.length < g + 2) : generate_groups (g + 2) bank = ([], false) := by
  rw [generate_groups]
  have : bank.length - (g + 1) = 0 := by omega
  rw [this]
  simp [ggLoop]

/-- **C4.** What the spec claims of the candidate generator is true of
its *intended* semantics — `C(n,4)` distinct subsets of 4 distinct
bank words each, in deterministic bank order — but the code as run
(Python ≥ 3.7, PEP 479) instead raises `RuntimeError` before yielding
a single group whenever the bank has at least 4 words: the explicit
`raise StopIteration` at depth `group_size == 1` is converted into
`RuntimeError` the first time that sub-generator is exhausted. -/
theorem generate_groups_c4 :
    (∀ bank : List String, 4 ≤ bank.length → generate_groups 4 bank = ([], true)) ∧
    (∀ bank : List String, bank.Nodup →
      (generate_groups_intended 4 bank).length = Nat.choose bank.length 4 ∧
      (∀ gp ∈ generate_groups_intended 4 bank,
        gp.length = 4 ∧ gp.Nodup ∧ ∀ w ∈ gp, w ∈ bank) ∧
      (generate_groups_intended 4 bank).Nodup) :=
  ⟨fun bank h => generate_groups_err 2 bank h,
   fun bank hnd => generate_groups_intended_spec bank hnd⟩

/-- Witness for C4: on the 5-word bank `A..E` the generator as run
raises with nothing yielded, while the intended enumeration has
`C(5,4) = 5` pairwise-distinct groups. -/
theorem generate_groups_c4_witness :
    generate_groups 4 ["A", "B", "C", "D", "E"] = ([], true) ∧
    (generate_groups_intended 4 ["A", "B", "C", "D", "E"]).length =
      Nat.choose (["A", "B", "C", "D", "E"] : List String).length 4 ∧
    (generate_groups_intended 4 ["A", "B", "C", "D", "E"]).Nodup :=
  ⟨generate_groups_c4.1 _ (by decide),
   (generate_groups_c4.2 _ (by decide)).1,
   (generate_groups_c4.2 _ (by decide)).2.2⟩

/-! ### Claim C7 -/

/-- Counterexample to C7: with any cost oracle (here constantly 0) on
the 5-word bank `A..E`, `RSASolver.guess` does not return the (unique)
minimum-cost candidate — it returns no candidate at all, propagating
the generator's `RuntimeError`. -/
theorem rsa_guess_c7_counterexample :
    RSASolver.guess (fun _ => 0) ["A", "B", "C", "D", "E"] 4 = .error .runtimeError :=
  rfl

/-- **C7 (amended).** `RSASolver.guess` never returns a candidate, for
any cost oracle and any word bank: with at least 4 words in the bank
the candidate generator raises `RuntimeError` (PEP 479) before a single
candidate is evaluated, and with fewer the enumeration is empty, so
`heappop` on the empty heap raises `IndexError`. -/
theorem rsa_guess_never_returns (cost : List String → Nat) (bank : List String) :
    RSASolver.guess cost bank 4 =
      .error (if 4 ≤ bank.length then PyError.runtimeError else PyError.indexError) := by
  by_cases h4 : 4 ≤ bank.length
  · rw [if_pos h4, RSASolver.guess, generate_groups_err 2 bank h4]
    rfl
  · rw [if_neg h4, RSASolver.guess, generate_groups_empty 2 bank (by omega)]
    rfl

/-! ### Claim C5 -/

/-- Counterexample to C5: `GVCSolver.guess` (cited by the claim), with
its fixed `max_retries = 15` and a consensus role that never agrees,
*raises* `ValueError` on exhaustion instead of returning a fallback
value. -/
theorem gvc_guess_c5_counterexample :
    GVCSolver.guess (fun _ => some (["A", "B", "C", "D"], "cat"))
      (fun _ => some ["A", "B", "C", "D"]) (fun _ => false) 15 = .valueError := by
  decide

/-- When every attempt of the `SGVCSolver.guess` loop ends in a
rejection — the guesser reply always parses, the validator always
disagrees whenever consulted, and no immediate-accept short cut exists
because the remaining board is larger than one group — the loop
consumes its whole attempt list and returns the fallback. -/
theorem sgvcRounds_all_reject (guesserOracle : Nat → Option (List String × String))
    (validatorOracle : Nat → Option (Bool × String))
    (remaining_words : List String) (group_size : Nat)
    (sorted_failed_guesses : List (List String))
    (hg : ∀ n, (guesserOracle n).isSome = true)
    (hv : ∀ n, ∃ fb, validatorOracle n = some (false, fb))
    (hlen : remaining_words.length ≠ group_size) :
    ∀ attempts : List Nat,
      sgvcRounds guesserOracle validatorOracle remaining_words group_size
        sorted_failed_guesses attempts = (.fallbackNone, attempts.length) := by
  intro attempts
  induction attempts with
  | nil => rfl
  | cons a rest ih =>
    obtain ⟨gc, hgc⟩ := Option.isSome_iff_exists.1 (hg a)
    obtain ⟨fb, hfb⟩ := hv a
    by_cases hgr : (SGVCSolver.grounding_check (pySorted (gc.1.map normalizeWord))
        remaining_words group_size sorted_failed_guesses).1 = true
    · have hround : sgvcRound guesserOracle validatorOracle remaining_words group_size
          sorted_failed_guesses a = .rejectDisagree fb := by
        simp [sgvcRound, hgc, hfb, hlen, hgr]
      rw [sgvcRounds, hround]
      simp [ih]
    · have hround : sgvcRound guesserOracle validatorOracle remaining_words group_size
          sorted_failed_guesses a = .rejectUngrounded
            (SGVCSolver.grounding_check (pySorted (gc.1.map normalizeWord))
              remaining_words group_size sorted_failed_guesses).2 := by
        simp [sgvcRound, hgc, hlen, hgr]
      rw [sgvcRounds, hround]
      simp [ih]

/-- **C5 (amended).** When the retry budget is exhausted (for example
the validator disagrees in every round), `SGVCSolver.guess` terminates
after exactly `max_retries` rounds and returns the deterministic
fallback `(("None","None"),"None")` without raising; `GVCSolver.guess`
in the same situation instead raises `ValueError` (see the
counterexample). -/
theorem sgvc_guess_fallback_after_max_retries
    (guesserOracle : Nat → Option (List String × String))
    (validatorOracle : Nat → Option (Bool × String))
    (remaining_words : List String) (group_size : Nat)
    (sorted_failed_guesses : List (List String)) (max_retries : Nat)
    (hg : ∀ n, (guesserOracle n).isSome = true)
    (hv : ∀ n, ∃ fb, validatorOracle n = some (false, fb))
    (hlen : remaining_words.length ≠ group_size) :
    SGVCSolver.guess guesserOracle validatorOracle remaining_words group_size
      sorted_failed_guesses max_retries = (.fallbackNone, max_retries) := by
  rw [SGVCSolver.guess, sgvcRounds_all_reject guesserOracle validatorOracle
    remaining_words group_size sorted_failed_guesses hg hv hlen]
  simp

/-- Witness for C5: with a validator that always disagrees over a
5-word board, `SGVCSolver.guess` with its source value
`max_retries = 15` runs exactly 15 rounds and falls back. -/
theorem sgvc_guess_fallback_witness :
    SGVCSolver.guess (fun _ => some (["A", "B", "C", "D"], "cat"))
      (fun _ => some (false, "not convinced")) ["A", "B", "C", "D", "E"] 4 [] 15 =
      (.fallbackNone, 15) :=
  sgvc_guess_fallback_after_max_retries _ _ _ _ _ 15
    (fun _ => rfl) (fun _ => ⟨"not convinced", rfl⟩) (by decide)

/-! ### Claim C6 -/

/-- Counterexample to C6: the rejection condition is *not* "the sorted
normalized group is identical to some ledger entry".  With the guess
`A B C D` drawn entirely from the remaining board, of the right size,
and a ledger whose only entry is the 5-word `A B C D E`, every
rejection condition of the claim is false, yet `grounding_check`
rejects: rule 3 compares the zipped prefixes position by position and
the count of agreeing positions reaches `group_size`. -/
theorem grounding_check_c6_counterexample :
    (SGVCSolver.grounding_check ["A", "B", "C", "D"] ["A", "B", "C", "D", "E"] 4
        [["A", "B", "C", "D", "E"]]).1 = false ∧
    ((["A", "B", "C", "D"] : List String).map normalizeWord).all
      (fun w => ((["A", "B", "C", "D", "E"] : List String).map normalizeWord).contains w)
      = true ∧
    (["A", "B", "C", "D"] : List String).length = 4 ∧
    (([["A", "B", "C", "D", "E"]] : List (List String)).map (List.map normalizeWord)).all
      (fun entry =>
        pySorted ((["A", "B", "C", "D"] : List String).map normalizeWord) ≠ entry)
      = true := by
  decide

/-- **C6 (amended).** The structural grounding check is pure (the
embedding is a function of the proposal, the board, the size and the
ledger alone — no agent is consulted) and rejects, with a non-empty
human-readable reason, exactly when: some normalized proposed word is
missing from the normalized remaining bank, or the group does not
contain exactly `group_size` words, or the sorted normalized group
agrees *position by position* with the zipped prefix of some normalized
ledger entry in `group_size` positions (which coincides with identity
to the entry whenever the entry has exactly `group_size` words, but
also fires on longer entries extending the guess).  On any rejection
the validator role is not consulted for that proposal: the round's
outcome is independent of the validator oracle. -/
theorem grounding_check_characterization (guess remaining_words : List String)
    (group_size : Nat) (ledger : List (List String)) :
    ((SGVCSolver.grounding_check guess remaining_words group_size ledger).1 = false ↔
      (∃ w ∈ guess.map normalizeWord, w ∉ remaining_words.map normalizeWord) ∨
      guess.length ≠ group_size ∨
      (∃ entry ∈ ledger.map (List.map normalizeWord),
        ((pySorted (guess.map normalizeWord)).zip entry).countP
          (fun p => p.1 == p.2) = group_size)) ∧
    ((SGVCSolver.grounding_check guess remaining_words group_size ledger).1 = false →
      (SGVCSolver.grounding_check guess remaining_words group_size ledger).2 ≠ "") ∧
    (∀ (guesserOracle : Nat → Option (List String × String))
        (v₁ v₂ : Nat → Option (Bool × String)) (attempt : Nat),
      (∀ gc : List String × String, guesserOracle attempt = some gc →
        (SGVCSolver.grounding_check (pySorted (gc.1.map normalizeWord)) remaining_words
          group_size ledger).1 = false) →
      sgvcRound guesserOracle v₁ remaining_words group_size ledger attempt =
        sgvcRound guesserOracle v₂ remaining_words group_size ledger attempt) := by
  have hfilter : 0 < ((guess.map normalizeWord).filter
      (fun word => !(remaining_words.map normalizeWord).contains word)).length ↔
      ∃ w ∈ guess.map normalizeWord, w ∉ remaining_words.map normalizeWord := by
    rw [List.length_pos]
    constructor
    · intro hne
      obtain ⟨w, hw⟩ := List.exists_mem_of_ne_nil _ hne
      obtain ⟨hwP, hwB⟩ := List.mem_filter.1 hw
      refine ⟨w, hwP, fun hmem => ?_⟩
      rw [Bool.not_eq_true', ← Bool.not_eq_true] at hwB
      exact hwB (by simpa [List.contains, List.elem_iff] using hmem)
    · rintro ⟨w, hw, hnot⟩ hnil
      have : w ∈ ((guess.map normalizeWord).filter
          (fun word => !(remaining_words.map normalizeWord).contains word)) :=
        List.mem_filter.2 ⟨hw, by simpa [List.contains, List.elem_iff] using hnot⟩
      rw [hnil] at this
      exact absurd this (List.not_mem_nil w)
  refine ⟨?_, ?_, ?_⟩
  · simp only [SGVCSolver.grounding_check]
    by_cases hpos : 0 < ((guess.map normalizeWord).filter
        (fun word => !(remaining_words.map normalizeWord).contains word)).length
    · rw [if_pos hpos]
      exact iff_of_true rfl (Or.inl (hfilter.1 hpos))
    · rw [if_neg hpos]
      have notA : ¬ ∃ w ∈ guess.map normalizeWord,
          w ∉ remaining_words.map normalizeWord := fun hA => hpos (hfilter.2 hA)
      by_cases h2 : (guess.map normalizeWord).length ≠ group_size
      · rw [if_pos h2]
        exact iff_of_true rfl (Or.inr (Or.inl (by simpa using h2)))
      · rw [if_neg h2]
        push_neg at h2
        have notB : ¬ guess.length ≠ group_size := by simpa using h2
        by_cases h3 : 0 < (ledger.map (List.map normalizeWord)).length
        · rw [if_pos h3]
          by_cases h4 : ((ledger.map (List.map normalizeWord)).any
              (fun failed_guesses =>
                (((pySorted (guess.map normalizeWord)).zip failed_guesses).countP
                  (fun p => p.1 == p.2)) = group_size)) = true
          · rw [if_pos h4]
            refine iff_of_true rfl (Or.inr (Or.inr ?_))
            obtain ⟨e, he, hc⟩ := List.any_eq_true.1 h4
            exact ⟨e, he, of_decide_eq_true hc⟩
          · rw [if_neg h4]
            refine iff_of_false (by simp) ?_
            rintro (hA | hB | ⟨e, he, hc⟩)
            · exact notA hA
            · exact notB hB
            · exact h4 (List.any_eq_true.2 ⟨e, he, decide_eq_true hc⟩)
        · rw [if_neg h3]
          refine iff_of_false (by simp) ?_
          rintro (hA | hB | ⟨e, he, _⟩)
          · exact notA hA
          · exact notB hB
          · have : (ledger.map (List.map normalizeWord)) = [] := by
              have := Nat.eq_zero_of_not_pos h3
              exact List.length_eq_zero.1 this
            rw [this] at he
            exact absurd he (List.not_mem_nil e)
  · intro hrej
    simp only [SGVCSolver.grounding_check] at hrej ⊢
    by_cases hc1 : 0 < ((guess.map normalizeWord).filter
        (fun word => !(remaining_words.map normalizeWord).contains word)).length
    · rw [if_pos hc1]
      simp
    · rw [if_neg hc1] at hrej ⊢
      by_cases hc2 : (guess.map normalizeWord).length ≠ group_size
      · rw [if_pos hc2]
        simp
      · rw [if_neg hc2] at hrej ⊢
        by_cases hc3 : 0 < (ledger.map (List.map normalizeWord)).length
        · rw [if_pos hc3] at hrej ⊢
          by_cases hc4 : ((ledger.map (List.map normalizeWord)).any
              (fun failed_guesses =>
                (((pySorted (guess.map normalizeWord)).zip failed_guesses).countP
                  (fun p => p.1 == p.2)) = group_size)) = true
          · rw [if_pos hc4]
            simp
          · rw [if_neg hc4] at hrej
            simp at hrej
        · rw [if_neg hc3] at hrej
          simp at hrej
  · intro guesserOracle v₁ v₂ attempt hfail
    rw [sgvcRound, sgvcRound]
    cases hgc : guesserOracle attempt with
    | none => rfl
    | some gc =>
      have hgr := hfail gc hgc
      simp [hgr]

/-- Witness for C6 (amended): a guess with a word missing from the
board is rejected with a non-empty reason, and a round whose grounding
fails produces the same outcome for two different validator oracles
(one of which would even agree). -/
theorem grounding_check_characterization_witness :
    (SGVCSolver.grounding_check ["A", "B"] ["A"] 2 []).1 = false ∧
    (SGVCSolver.grounding_check ["A", "B"] ["A"] 2 []).2 ≠ "" ∧
    sgvcRound (fun _ => some (["A", "B"], "pair")) (fun _ => some (true, "")) ["A"] 2 [] 1 =
      sgvcRound (fun _ => some (["A", "B"], "pair")) (fun _ => none) ["A"] 2 [] 1 :=
  ⟨(grounding_check_characterization ["A", "B"] ["A"] 2 []).1.mpr (Or.inl (by decide)),
   (grounding_check_characterization ["A", "B"] ["A"] 2 []).2.1 (by decide),
   (grounding_check_characterization ["A", "B"] ["A"] 2 []).2.2
     (fun _ => some (["A", "B"], "pair")) (fun _ => some (true, "")) (fun _ => none) 1
     (fun gc hgc => by
       obtain rfl : ((["A", "B"], "pair") : List String × String) = gc :=
         Option.some.inj hgc
       decide)⟩

end Rsallms
